import Mathlib

/-!
Shallow embedding of `make_redirects_to_archive.py`, the redirect-stub
generator of the `spiritualblues.github.io` repository, together with
theorems checking the specification's claims against this embedding.

Strings are modelled as Lean `String`/`List Char`; the character-level
operations of the Python standard library used by the script
(`re.sub(r"\s+", " ", ·)`, `str.strip`, `html.unescape`, `str.title`,
`pathlib.PurePath.stem`/`.suffix`, `str.lower`) are given executable
models below.  Case mappings are modelled on the ASCII range, which is
the range the script's data (HTML tag names, filenames, entity names)
exercises.  The filesystem is modelled explicitly: the archive directory
is a list of directory entries, and the working directory a map from
path strings to file contents that the generator's writes update in
order.
-/

namespace MakeRedirects

/-- Characters matched by Python's `\s` (for `str` patterns) and stripped by
`str.strip()`: the characters for which `str.isspace()` holds. -/
def isPySpace (c : Char) : Bool :=
  (('\x09' ≤ c && c ≤ '\x0d') || c = ' ' ||
   ('\x1c' ≤ c && c ≤ '\x1f') || c = '\x85' || c = '\xa0' ||
   c = '\u1680' || ('\u2000' ≤ c && c ≤ '\u200a') ||
   c = '\u2028' || c = '\u2029' || c = '\u202f' || c = '\u205f' || c = '\u3000')

/-- Model of `re.sub(r"\s+", " ", s)`: every maximal run of whitespace
characters is replaced by a single space.  The boolean argument records
whether the previous character belonged to a whitespace run. -/
def collapseWsAux : Bool → List Char → List Char
  | _, [] => []
  | inRun, c :: cs =>
    if isPySpace c then
      if inRun then collapseWsAux true cs else ' ' :: collapseWsAux true cs
    else c :: collapseWsAux false cs

/-- Model of `re.sub(r"\s+", " ", s)` on a whole string. -/
def collapseWs (s : List Char) : List Char := collapseWsAux false s

/-- Model of Python `str.strip()`: drop leading and trailing whitespace. -/
def pyStrip (s : List Char) : List Char :=
  ((s.dropWhile isPySpace).reverse.dropWhile isPySpace).reverse

/-- Numeric value of a decimal digit character, `none` on other characters
(code points 48-57 are the digits `0`-`9`). -/
def decDigit (c : Char) : Option Nat :=
  let n := c.toNat
  if 48 ≤ n ∧ n ≤ 57 then some (n - 48) else none

/-- Numeric value of a hexadecimal digit character, `none` on other
characters (`a`-`f` occupy code points 97-102 and `A`-`F` 65-70, so their
values are offsets from 87 and 55 respectively). -/
def hexDigit (c : Char) : Option Nat :=
  let n := c.toNat
  if 48 ≤ n ∧ n ≤ 57 then some (n - 48)
  else if 97 ≤ n ∧ n ≤ 102 then some (n - 87)
  else if 65 ≤ n ∧ n ≤ 70 then some (n - 55)
  else none

/-- Read a maximal run of digits (in the given base reader), returning their
value, the count of digit characters read, and the remaining characters. -/
def readDigits (dig : Char → Option Nat) (base : Nat) : List Char → Nat → Nat → Nat × Nat × List Char
  | [], acc, n => (acc, n, [])
  | c :: cs, acc, n =>
    match dig c with
    | some v => readDigits dig base cs (acc * base + v) (n + 1)
    | none => (acc, n, c :: cs)

/-- Named character references recognised by the `html.unescape` model.
Model of the relevant fragment of Python's html5 entity table: the
script's inputs only exercise the core XML/HTML entities. -/
def namedEntities : List (List Char × Char) :=
  [("amp".data, '&'), ("lt".data, '<'), ("gt".data, '>'),
   ("quot".data, '"'), ("apos".data, '\''), ("nbsp".data, '\xa0')]

/-- Whether `nat` is a Unicode scalar value (a valid `Char` code). -/
def isScalar (n : Nat) : Bool := n < 0xd800 || (0xe000 ≤ n && n < 0x110000)

/-- Try to parse one character reference immediately after a `&`.
Returns the decoded character and the number of characters consumed
(up to and including the closing `;`).  Model of the reference syntax
handled by Python's `html.unescape`, restricted to references with a
closing semicolon and to the entity names of `namedEntities`. -/
def parseEntity (s : List Char) : Option (Char × Nat) :=
  match s with
  | '#' :: 'x' :: rest =>
    (match readDigits hexDigit 16 rest 0 0 with
     | (v, n + 1, ';' :: _) => if isScalar v then some (Char.ofNat v, n + 4) else none
     | _ => none)
  | '#' :: 'X' :: rest =>
    (match readDigits hexDigit 16 rest 0 0 with
     | (v, n + 1, ';' :: _) => if isScalar v then some (Char.ofNat v, n + 4) else none
     | _ => none)
  | '#' :: rest =>
    (match readDigits decDigit 10 rest 0 0 with
     | (v, n + 1, ';' :: _) => if isScalar v then some (Char.ofNat v, n + 3) else none
     | _ => none)
  | _ =>
    namedEntities.firstM (fun (nm, c) =>
      if nm ++ [';'] = s.take (nm.length + 1) then some (c, nm.length + 1) else none)

/-- Worker for the `html.unescape` model; the fuel argument starts at the
length of the string, and at least one character is consumed per step. -/
def unescapeAux : Nat → List Char → List Char
  | 0, s => s
  | _ + 1, [] => []
  | fuel + 1, '&' :: rest =>
    match parseEntity rest with
    | some (c, k) => c :: unescapeAux fuel (rest.drop k)
    | none => '&' :: unescapeAux fuel rest
  | fuel + 1, c :: rest => c :: unescapeAux fuel rest

/-- Model of Python `html.unescape`: decode character references. -/
def unescape (s : List Char) : List Char := unescapeAux s.length s

/-- Case-insensitive prefix test: does `s` start with the (lowercase)
pattern `pat`?  Model of matching a literal under `re.IGNORECASE`,
with ASCII case folding. -/
def startsWithCI : List Char → List Char → Bool
  | [], _ => true
  | _ :: _, [] => false
  | p :: ps, c :: cs => (c.toLower == p) && startsWithCI ps cs

/-- Scan for the earliest case-insensitive occurrence of `</title>`,
returning the characters before it.  Model of the lazy `(.*?)</title>`
part of the search pattern under `re.DOTALL`. -/
def splitAtClose : List Char → Option (List Char)
  | [] => none
  | c :: cs =>
    if startsWithCI "</title>".data (c :: cs) then some []
    else (splitAtClose cs).map (fun cap => c :: cap)

/-- Try to match `<title[^>]*>(.*?)</title>` starting at the head of `s`,
returning the capture group.  The greedy `[^>]*` can only stop right
before the first `>`, so the match at a given start is deterministic. -/
def matchAt (s : List Char) : Option (List Char) :=
  if startsWithCI "<title".data s then
    match (s.drop 6).dropWhile (fun c => c ≠ '>') with
    | '>' :: after => splitAtClose after
    | _ => none
  else none

/-- Model of `re.search(r"<title[^>]*>(.*?)</title>", text, IGNORECASE | DOTALL)`:
try every start position from the left and return the first capture. -/
def searchTitle : List Char → Option (List Char)
  | [] => none
  | c :: cs =>
    match matchAt (c :: cs) with
    | some cap => some cap
    | none => searchTitle cs

/-- Model of `find_title(html_text, fallback)` from the script: regex search
for the first title element; on a match, collapse whitespace runs, strip,
decode entities, and cut to 140 characters; otherwise the fallback. -/
def find_title (html_text fallback : String) : String :=
  match searchTitle html_text.data with
  | some g =>
    let title := unescape (pyStrip (collapseWs g))
    if title.length > 140 then String.mk (title.take 140) else String.mk title
  | none => fallback

/-- Title extractor following the specification's stated order of operations
(collapse whitespace runs, decode entities, trim, truncate); written for
comparison with `find_title`, whose cleanup order is the code's
(collapse, trim, decode, truncate). -/
def find_title_specOrder (html_text fallback : String) : String :=
  match searchTitle html_text.data with
  | some g =>
    let title := pyStrip (unescape (collapseWs g))
    if title.length > 140 then String.mk (title.take 140) else String.mk title
  | none => fallback

/-- Index of the last `.` in the list, if any; model of `str.rfind('.')`
restricted to the found case. -/
def lastDotIdx : List Char → Option Nat
  | [] => none
  | c :: cs =>
    match lastDotIdx cs with
    | some i => some (i + 1)
    | none => if c = '.' then some 0 else none

/-- Model of `pathlib.PurePath.suffix` on a plain filename: the part of the
name from its last dot on, provided that dot is neither the first nor the
last character; otherwise the empty string. -/
def pySuffix (name : String) : String :=
  match lastDotIdx name.data with
  | some i => if 0 < i && i + 1 < name.data.length then String.mk (name.data.drop i) else ""
  | none => ""

/-- Model of `pathlib.PurePath.stem` on a plain filename: the name with its
suffix (as in `pySuffix`) removed. -/
def pyStem (name : String) : String :=
  match lastDotIdx name.data with
  | some i => if 0 < i && i + 1 < name.data.length then String.mk (name.data.take i) else name
  | none => name

/-- Model of Python `str.lower()` (ASCII case mapping). -/
def strLower (s : String) : String := String.mk (s.data.map Char.toLower)

/-- Worker for the `str.title()` model: a letter is uppercased when the
previous character was not a letter and lowercased otherwise. -/
def pyTitleAux : Bool → List Char → List Char
  | _, [] => []
  | prevCased, c :: cs =>
    if c.isAlpha then
      (if prevCased then c.toLower else c.toUpper) :: pyTitleAux true cs
    else c :: pyTitleAux false cs

/-- Model of Python `str.title()` (ASCII case mapping). -/
def pyTitle (s : String) : String := String.mk (pyTitleAux false s.data)

/-- A directory entry of the archive directory, as seen by
`archive_path.iterdir()`: its `name`, whether it is a regular file, and the
result of `read_text(encoding="utf-8", errors="ignore")` on it — `none`
models the read raising an exception. -/
structure Entry where
  name : String
  isFile : Bool
  readResult : Option String
deriving DecidableEq, Repr

/-- The `EXCLUDE_FILES` configuration constant of the script. -/
def EXCLUDE_FILES : List String := ["index.html", "404.html"]

/-- The `PUBLIC_BASE` configuration constant of the script. -/
def PUBLIC_BASE : String := "https://spi.blue"

/-- The filter of the list comprehension in `main`: regular file, suffix
lowercases to `.html`, and name not in `EXCLUDE_FILES`. -/
def eligible (e : Entry) : Bool :=
  e.isFile && strLower (pySuffix e.name) == ".html" && !(EXCLUDE_FILES.contains e.name)

/-- Code-point lexicographic strict comparison of strings, the order Python
uses to compare `str` (and hence, on paths in one directory, `Path`)
values. -/
def strLtB : List Char → List Char → Bool
  | [], [] => false
  | [], _ :: _ => true
  | _ :: _, [] => false
  | a :: as, b :: bs => decide (a < b) || (a == b && strLtB as bs)

/-- The sort order of `html_files.sort()`: ascending by filename. -/
def nameLe (a b : Entry) : Prop := strLtB b.name.data a.name.data = false

instance : DecidableRel nameLe := fun a b => by unfold nameLe; infer_instance

/-- Model of lines 39-40 of the script: the filtered directory listing,
sorted ascending by filename (a stable sort; names in one directory are
distinct, so any correct ascending sort yields Python's result). -/
def sortedEligible (arch : List Entry) : List Entry :=
  List.insertionSort nameLe (arch.filter eligible)

/-- The fallback title of line 53: `slug.replace("-", " ").title()`. -/
def fallbackFor (slug : String) : String :=
  pyTitle (String.mk (slug.data.map (fun c => if c = '-' then ' ' else c)))

/-- Lines 49-52: the text handed to title extraction; a failed read is
caught and treated as the empty string. -/
def readText (e : Entry) : String :=
  match e.readResult with
  | some t => t
  | none => ""

/-- The title used for a page's stub (line 53). -/
def titleFor (e : Entry) : String :=
  find_title (readText e) (fallbackFor (pyStem e.name))

/-- Line 45: `target_rel = f"/archive/{page.name}"`. -/
def targetRel (e : Entry) : String := "/archive/" ++ e.name

/-- Line 46: `target_abs = f"{PUBLIC_BASE}{target_rel}"`. -/
def targetAbs (e : Entry) : String := PUBLIC_BASE ++ targetRel e

/-- Lines 56-58: the output path `./<slug>/index.html` of a page's stub. -/
def outPath (e : Entry) : String := pyStem e.name ++ "/index.html"

/-- The f-string template of lines 61-76, with its three parameter fields. -/
def renderStub (title target_abs target_rel : String) : String :=
  "<!DOCTYPE html>\n<html lang=\"en\">\n  <head>\n    <meta charset=\"utf-8\">\n    <title>" ++
  title ++
  "</title>\n    <link rel=\"canonical\" href=\"" ++
  target_abs ++
  "\">\n    <meta http-equiv=\"refresh\" content=\"0; url=" ++
  target_rel ++
  "\">\n    <meta name=\"robots\" content=\"noarchive\">\n    <meta name=\"viewport\" content=\"width=device-width, initial-scale=1\">\n    <script>location.replace(\"" ++
  target_rel ++
  "\");</script>\n  </head>\n  <body>\n    <p>If you are not redirected, <a href=\"" ++
  target_rel ++
  "\">click here</a>.</p>\n  </body>\n</html>\n"

/-- The stub content written for one page. -/
def stubFor (e : Entry) : String := renderStub (titleFor e) (targetAbs e) (targetRel e)

/-- The sequence of file writes the run performs, in order: one
`<slug>/index.html` write per eligible page, in sorted order. -/
def writesFor (arch : List Entry) : List (String × String) :=
  (sortedEligible arch).map (fun e => (outPath e, stubFor e))

/-- Model of `main`: `none` models a non-existent archive path, on which the
script raises `SystemExit` before writing anything; otherwise it returns
the ordered writes and the final `created` counter. -/
def run : Option (List Entry) → Except String (List (String × String) × Nat)
  | none => Except.error "Archive path not found"
  | some arch => Except.ok (writesFor arch, (writesFor arch).length)

/-- The working directory's files: a map from path to content. -/
def FS : Type := String → Option String

/-- One `write_text` call: set the file at `p` to `c`, overwriting. -/
def applyWrite (fs : FS) (p c : String) : FS :=
  fun q => if q = p then some c else fs q

/-- Perform a list of writes in order. -/
def applyWrites (fs : FS) : List (String × String) → FS
  | [] => fs
  | (p, c) :: ws => applyWrites (applyWrite fs p c) ws

/-- Content of the last write to `q` in the list, if any. -/
def lastWrite : List (String × String) → String → Option String
  | [], _ => none
  | (p, c) :: ws, q =>
    match lastWrite ws q with
    | some c₂ => some c₂
    | none => if q = p then some c else none

/-- A whole invocation of the script against working-directory state `fs`:
the resulting state and whether the run terminated normally. -/
def execRun (w : Option (List Entry)) (fs : FS) : FS × Bool :=
  match run w with
  | Except.error _ => (fs, false)
  | Except.ok (ws, _) => (applyWrites fs ws, true)

/-- Model of `out_dir.mkdir(parents=True, exist_ok=True)` on a set of
existing directories: insert the directory; never an error. -/
def mkdirP (ds : List String) (d : String) : List String :=
  if ds.contains d then ds else d :: ds

/-- Case-sensitive test that the second list starts with the first. -/
def startsWithCS : List Char → List Char → Bool
  | [], _ => true
  | _ :: _, [] => false
  | p :: ps, c :: cs => (c == p) && startsWithCS ps cs

/-- Whether the needle occurs as a contiguous substring of the haystack. -/
def containsSub (needle : List Char) : List Char → Bool
  | [] => startsWithCS needle []
  | c :: cs => startsWithCS needle (c :: cs) || containsSub needle cs

/-- The archive entry of the specification's end-to-end example: file
`hello-world.html` whose body holds `<title>Hello, World!</title>`. -/
def helloEntry : Entry := ⟨"hello-world.html", true, some "<title>Hello, World!</title>"⟩

/-- An eligible page whose extension is upper-case, with stem `post`. -/
def dupA : Entry := ⟨"post.HTML", true, some "<title>A</title>"⟩

/-- An eligible page whose extension is lower-case, with the same stem
`post` as `dupA` but different content. -/
def dupB : Entry := ⟨"post.html", true, some "<title>B</title>"⟩

/-- An archive listing holding both same-stem pages, in unsorted order. -/
def dupArch : List Entry := [dupB, dupA]

/-- Strict lexicographic comparison is asymmetric. -/
theorem strLtB_asymm : ∀ a b : List Char, strLtB a b = true → strLtB b a = false
  | [], [] => by simp [strLtB]
  | [], _ :: _ => by simp [strLtB]
  | _ :: _, [] => by simp [strLtB]
  | a :: as, b :: bs => by
    simp only [strLtB, Bool.or_eq_true, decide_eq_true_eq, Bool.and_eq_true, beq_iff_eq,
      Bool.or_eq_false_iff, decide_eq_false_iff_not, Bool.and_eq_false_iff, beq_eq_false_iff_ne,
      ne_eq]
    rintro (hab | ⟨rfl, h⟩)
    · exact ⟨not_lt_of_lt hab, Or.inl (ne_of_gt hab)⟩
    · exact ⟨lt_irrefl a, Or.inr (strLtB_asymm as bs h)⟩

/-- Strict lexicographic comparison relates any intermediate list to one of
the endpoints. -/
theorem strLtB_connex : ∀ x y z : List Char, strLtB x z = true → strLtB x y = true ∨ strLtB y z = true
  | [], [], [] => by simp [strLtB]
  | [], _ :: _, [] => by simp [strLtB]
  | [], [], _ :: _ => by simp [strLtB]
  | [], _ :: _, _ :: _ => by simp [strLtB]
  | _ :: _, _, [] => by simp [strLtB]
  | _ :: _, [], _ :: _ => by simp [strLtB]
  | a :: as, b :: bs, c :: cs => by
    simp only [strLtB, Bool.or_eq_true, decide_eq_true_eq, Bool.and_eq_true, beq_iff_eq]
    rintro (hac | ⟨rfl, h⟩)
    · rcases lt_trichotomy a b with h1 | rfl | h1
      · exact Or.inl (Or.inl h1)
      · exact Or.inr (Or.inl hac)
      · exact Or.inr (Or.inl (lt_trans h1 hac))
    · rcases lt_trichotomy a b with h1 | rfl | h1
      · exact Or.inl (Or.inl h1)
      · rcases strLtB_connex as bs cs h with h2 | h2
        · exact Or.inl (Or.inr ⟨rfl, h2⟩)
        · exact Or.inr (Or.inr ⟨rfl, h2⟩)
      · exact Or.inr (Or.inl h1)

instance : IsTotal Entry nameLe where
  total a b := by
    unfold nameLe
    by_cases h : strLtB b.name.data a.name.data = true
    · exact Or.inr (strLtB_asymm _ _ h)
    · exact Or.inl (Bool.eq_false_iff.mpr h)

instance : IsTrans Entry nameLe where
  trans a b c h1 h2 := by
    unfold nameLe at *
    by_cases h : strLtB c.name.data a.name.data = true
    · rcases strLtB_connex _ b.name.data _ h with h3 | h3
      · rw [h2] at h3; exact absurd h3 (by simp)
      · rw [h1] at h3; exact absurd h3 (by simp)
    · exact Bool.eq_false_iff.mpr h

/-- A path that no write in the list touches keeps its prior content. -/
theorem applyWrites_not_written : ∀ (ws : List (String × String)) (fs : FS) (q : String),
    lastWrite ws q = none → applyWrites fs ws q = fs q
  | [], _, _ => by intro _; rfl
  | (p, c) :: ws, fs, q => by
    intro h
    simp only [lastWrite] at h
    rcases hlw : lastWrite ws q with _ | c₂
    · rw [hlw] at h
      have hqp : ¬(q = p) := by
        intro hq; rw [if_pos hq] at h; exact Option.noConfusion h
      rw [show applyWrites fs ((p, c) :: ws) q = applyWrites (applyWrite fs p c) ws q from rfl,
        applyWrites_not_written ws _ q hlw]
      simp [applyWrite, hqp]
    · rw [hlw] at h; exact Option.noConfusion h

/-- A path written by the list ends up holding its last written content,
whatever the prior state was. -/
theorem applyWrites_written : ∀ (ws : List (String × String)) (fs : FS) (q c : String),
    lastWrite ws q = some c → applyWrites fs ws q = some c
  | [], _, _, _ => by intro h; exact Option.noConfusion h
  | (p, c₁) :: ws, fs, q, c => by
    intro h
    simp only [lastWrite] at h
    rcases hlw : lastWrite ws q with _ | c₂
    · rw [hlw] at h
      have hqp : q = p := by
        by_contra hq; rw [if_neg hq] at h; exact Option.noConfusion h
      rw [if_pos hqp] at h
      have hc : c₁ = c := Option.some.inj h
      rw [show applyWrites fs ((p, c₁) :: ws) q = applyWrites (applyWrite fs p c₁) ws q from rfl,
        applyWrites_not_written ws _ q hlw]
      simp [applyWrite, hqp, hc]
    · rw [hlw] at h
      exact h ▸ applyWrites_written ws _ q c₂ hlw

/-- Replaying the same write list leaves the state unchanged. -/
theorem applyWrites_idem (fs : FS) (ws : List (String × String)) :
    applyWrites (applyWrites fs ws) ws = applyWrites fs ws := by
  funext q
  rcases hlw : lastWrite ws q with _ | c
  · rw [applyWrites_not_written ws _ q hlw, applyWrites_not_written ws fs q hlw]
  · rw [applyWrites_written ws _ q c hlw, applyWrites_written ws fs q c hlw]

/-- The last write to a path exists exactly when some write targets it. -/
theorem lastWrite_eq_none_iff : ∀ (ws : List (String × String)) (q : String),
    lastWrite ws q = none ↔ q ∉ ws.map Prod.fst
  | [], q => by simp [lastWrite]
  | (p, c) :: ws, q => by
    simp only [lastWrite, List.map_cons, List.mem_cons]
    rcases hlw : lastWrite ws q with _ | c₂
    · have := (lastWrite_eq_none_iff ws q).mp hlw
      by_cases hqp : q = p <;> simp [hqp, this]
    · have : q ∈ ws.map Prod.fst := by
        by_contra hq
        rw [(lastWrite_eq_none_iff ws q).mpr hq] at hlw
        exact Option.noConfusion hlw
      simp [this]

/-- Prefix tests survive extending the haystack on the right. -/
theorem startsWithCS_append : ∀ (n h b : List Char),
    startsWithCS n h = true → startsWithCS n (h ++ b) = true
  | [], _, _ => by intro _; rfl
  | _ :: _, [], _ => by intro hh; exact Bool.noConfusion hh
  | p :: ps, c :: cs, b => by
    simp only [startsWithCS, Bool.and_eq_true, List.cons_append]
    rintro ⟨h1, h2⟩
    exact ⟨h1, startsWithCS_append ps cs b h2⟩

/-- Substring containment survives extending the haystack on the right. -/
theorem containsSub_append_left : ∀ (n h b : List Char),
    containsSub n h = true → containsSub n (h ++ b) = true
  | n, [], b => by
    intro hh
    have hn : n = [] := by
      cases n with
      | nil => rfl
      | cons p ps => exact Bool.noConfusion hh
    subst hn
    cases b with
    | nil => rfl
    | cons c cs => simp [containsSub, startsWithCS]
  | n, c :: cs, b => by
    simp only [containsSub, Bool.or_eq_true, List.cons_append]
    rintro (hh | hh)
    · exact Or.inl (startsWithCS_append n (c :: cs) b hh)
    · exact Or.inr (containsSub_append_left n cs b hh)

/-- Collapsing a whitespace-only tail inside a run yields nothing. -/
theorem collapseWsAux_all_space : ∀ g : List Char,
    g.all isPySpace = true → collapseWsAux true g = []
  | [] => by intro _; rfl
  | c :: cs => by
    simp only [List.all_cons, Bool.and_eq_true]
    rintro ⟨h1, h2⟩
    simp [collapseWsAux, h1, collapseWsAux_all_space cs h2]

/-- A whitespace-only capture group cleans to the empty list. -/
theorem pyStrip_collapseWs_all_space (g : List Char) (h : g.all isPySpace = true) :
    pyStrip (collapseWs g) = [] := by
  cases g with
  | nil => rfl
  | cons c cs =>
    simp only [List.all_cons, Bool.and_eq_true] at h
    have : collapseWs (c :: cs) = [' '] := by
      simp [collapseWs, collapseWsAux, h.1, collapseWsAux_all_space cs h.2]
    rw [this]
    decide

/-- C4: the processed pages are exactly the direct children of the archive
listing that are regular files whose extension lowercases to `.html` and
whose name is outside the exclusion set; in particular no processed entry
is a directory, and the excluded names `index.html` and `404.html` are
never processed, so they produce no output. -/
theorem C4_eligible_exactly (arch : List Entry) (e : Entry) :
    (e ∈ sortedEligible arch ↔
      e ∈ arch ∧ e.isFile = true ∧ strLower (pySuffix e.name) = ".html" ∧
        e.name ≠ "index.html" ∧ e.name ≠ "404.html") ∧
    "index.html" ∉ (sortedEligible arch).map Entry.name ∧
    "404.html" ∉ (sortedEligible arch).map Entry.name := by
  have hmem : ∀ x : Entry, x ∈ sortedEligible arch ↔ x ∈ arch ∧ eligible x = true := by
    intro x
    rw [sortedEligible, (List.perm_insertionSort nameLe _).mem_iff, List.mem_filter]
  have helig : ∀ x : Entry, eligible x = true ↔
      (x.isFile = true ∧ strLower (pySuffix x.name) = ".html" ∧
        x.name ≠ "index.html" ∧ x.name ≠ "404.html") := by
    intro x
    simp [eligible, EXCLUDE_FILES, not_or, and_assoc]
  refine ⟨(hmem e).trans (by rw [helig e]), ?_, ?_⟩
  · intro hbad
    rcases List.mem_map.mp hbad with ⟨x, hx, hname⟩
    exact (((helig x).mp ((hmem x).mp hx).2).2.2.1) hname
  · intro hbad
    rcases List.mem_map.mp hbad with ⟨x, hx, hname⟩
    exact (((helig x).mp ((hmem x).mp hx).2).2.2.2) hname

/-- C5: a missing archive path aborts the run with a descriptive message
before any file is written (the working directory is returned unchanged,
with the abnormal-termination flag), while any existing archive listing
makes the run terminate normally regardless of its entries' contents and
read results. -/
theorem C5_missing_archive_aborts (fs : FS) :
    run none = Except.error "Archive path not found" ∧
    execRun none fs = (fs, false) ∧
    ∀ arch : List Entry, (execRun (some arch) fs).2 = true :=
  ⟨rfl, rfl, fun _ => rfl⟩

/-- C6: a page whose read raised is treated as empty content and degrades to
the fallback title; the run still terminates normally, and every eligible
page of the listing (the unreadable one included) still gets its write. -/
theorem C6_read_failure_degrades (arch : List Entry) (e : Entry)
    (h : e.readResult = none) :
    titleFor e = fallbackFor (pyStem e.name) ∧
    (∀ fs : FS, (execRun (some arch) fs).2 = true) ∧
    (writesFor arch).length = (arch.filter eligible).length := by
  refine ⟨?_, fun _ => rfl, ?_⟩
  · simp only [titleFor, readText, h]
    rfl
  · simp only [writesFor, List.length_map, sortedEligible]
    exact (List.perm_insertionSort nameLe _).length_eq

/-- C6 witness: an unreadable eligible page, instantiated concretely. -/
theorem C6_read_failure_degrades_witness :
    (Entry.mk "a.html" true none).readResult = none ∧
    (titleFor (Entry.mk "a.html" true none) =
        fallbackFor (pyStem (Entry.mk "a.html" true none).name) ∧
      (∀ fs : FS, (execRun (some [Entry.mk "a.html" true none]) fs).2 = true) ∧
      (writesFor [Entry.mk "a.html" true none]).length =
        ([Entry.mk "a.html" true none].filter eligible).length) :=
  ⟨rfl, C6_read_failure_degrades [Entry.mk "a.html" true none] (Entry.mk "a.html" true none) rfl⟩

/-- C7: the run is deterministic and idempotent: the processed sequence is
ascending in filename order and is a permutation of the eligible entries,
the writes are a pure function of the archive listing, and replaying the
run over the state it produced changes nothing, so a second run with
unchanged inputs leaves byte-identical files. -/
theorem C7_deterministic_idempotent (arch : List Entry) (fs : FS) :
    List.Pairwise nameLe (sortedEligible arch) ∧
    (sortedEligible arch).Perm (arch.filter eligible) ∧
    execRun (some arch) (execRun (some arch) fs).1 = ((execRun (some arch) fs).1, true) := by
  refine ⟨List.sorted_insertionSort nameLe _, List.perm_insertionSort nameLe _, ?_⟩
  simp only [execRun, run]
  rw [applyWrites_idem]

/-- C8: every eligible page of the listing yields an output at
`<stem>/index.html`: some write of the run targets exactly that path, after
the run that file exists with the last content written there whatever the
prior working-directory state was (unconditional overwrite), and directory
creation is the never-failing idempotent insert. -/
theorem C8_output_per_file (arch : List Entry) (e : Entry)
    (h : e ∈ arch.filter eligible) :
    (pyStem e.name ++ "/index.html") ∈ (writesFor arch).map Prod.fst ∧
    (∃ c, ∀ fs : FS, applyWrites fs (writesFor arch) (pyStem e.name ++ "/index.html") = some c) ∧
    (∀ ds d, d ∈ mkdirP ds d ∧ (d ∈ ds → mkdirP ds d = ds)) := by
  have hsorted : e ∈ sortedEligible arch := by
    rw [sortedEligible, (List.perm_insertionSort nameLe _).mem_iff]
    exact h
  have hpath : (pyStem e.name ++ "/index.html") ∈ (writesFor arch).map Prod.fst := by
    simp only [writesFor, List.map_map, List.mem_map]
    exact ⟨e, hsorted, rfl⟩
  refine ⟨hpath, ?_, ?_⟩
  · have hne : lastWrite (writesFor arch) (pyStem e.name ++ "/index.html") ≠ none := by
      intro hnone
      exact (lastWrite_eq_none_iff _ _).mp hnone hpath
    rcases Option.ne_none_iff_exists.mp hne with ⟨c, hc⟩
    exact ⟨c, fun fs => applyWrites_written _ fs _ c hc.symm⟩
  · intro ds d
    constructor
    · by_cases hd : d ∈ ds <;> simp [mkdirP, hd]
    · intro hd
      simp [mkdirP, hd]

/-- C8 witness: a one-page archive, instantiated concretely. -/
theorem C8_output_per_file_witness :
    Entry.mk "a.html" true (some "") ∈ [Entry.mk "a.html" true (some "")].filter eligible ∧
    ((pyStem (Entry.mk "a.html" true (some "")).name ++ "/index.html") ∈
        (writesFor [Entry.mk "a.html" true (some "")]).map Prod.fst ∧
      (∃ c, ∀ fs : FS,
        applyWrites fs (writesFor [Entry.mk "a.html" true (some "")])
          (pyStem (Entry.mk "a.html" true (some "")).name ++ "/index.html") = some c) ∧
      (∀ ds d, d ∈ mkdirP ds d ∧ (d ∈ ds → mkdirP ds d = ds))) :=
  ⟨by decide, C8_output_per_file [Entry.mk "a.html" true (some "")] _ (by decide)⟩

/-- C4 witness: a small archive listing, instantiated concretely. -/
theorem C4_eligible_exactly_witness :
    ((Entry.mk "a.html" true (some "")) ∈
        sortedEligible [Entry.mk "a.html" true (some ""), Entry.mk "index.html" true (some "")] ↔
      (Entry.mk "a.html" true (some "")) ∈
          [Entry.mk "a.html" true (some ""), Entry.mk "index.html" true (some "")] ∧
        (Entry.mk "a.html" true (some "")).isFile = true ∧
        strLower (pySuffix (Entry.mk "a.html" true (some "")).name) = ".html" ∧
        (Entry.mk "a.html" true (some "")).name ≠ "index.html" ∧
        (Entry.mk "a.html" true (some "")).name ≠ "404.html") ∧
    "index.html" ∉
      (sortedEligible [Entry.mk "a.html" true (some ""),
        Entry.mk "index.html" true (some "")]).map Entry.name ∧
    "404.html" ∉
      (sortedEligible [Entry.mk "a.html" true (some ""),
        Entry.mk "index.html" true (some "")]).map Entry.name :=
  C4_eligible_exactly [Entry.mk "a.html" true (some ""), Entry.mk "index.html" true (some "")]
    (Entry.mk "a.html" true (some ""))

/-- C5 witness: a concrete working-directory state. -/
theorem C5_missing_archive_aborts_witness :
    run none = Except.error "Archive path not found" ∧
    execRun none (fun _ => none) = ((fun _ => none : FS), false) ∧
    ∀ arch : List Entry, (execRun (some arch) (fun _ => none)).2 = true :=
  C5_missing_archive_aborts (fun _ => none)

/-- C7 witness: a concrete archive listing and working-directory state. -/
theorem C7_deterministic_idempotent_witness :
    List.Pairwise nameLe (sortedEligible [Entry.mk "a.html" true (some "")]) ∧
    (sortedEligible [Entry.mk "a.html" true (some "")]).Perm
      ([Entry.mk "a.html" true (some "")].filter eligible) ∧
    execRun (some [Entry.mk "a.html" true (some "")])
        (execRun (some [Entry.mk "a.html" true (some "")]) (fun _ => none)).1 =
      ((execRun (some [Entry.mk "a.html" true (some "")]) (fun _ => none)).1, true) :=
  C7_deterministic_idempotent [Entry.mk "a.html" true (some "")] (fun _ => none)

set_option maxRecDepth 8000 in
/-- C1: every processed page's write is the fixed template instantiated with
the extracted-or-fallback title, the absolute canonical target
`PUBLIC_BASE ++ "/archive/" ++ name` and the relative target
`"/archive/" ++ name`; on the end-to-end example `hello-world.html` the
output is exactly the expected file and contains the expected title
element, canonical link, and meta-refresh content. -/
theorem C1_stub_template (arch : List Entry) (e : Entry) (h : e ∈ sortedEligible arch) :
    (pyStem e.name ++ "/index.html",
      renderStub (find_title (readText e) (fallbackFor (pyStem e.name)))
        (PUBLIC_BASE ++ ("/archive/" ++ e.name)) ("/archive/" ++ e.name)) ∈ writesFor arch ∧
    writesFor [helloEntry] =
      [("hello-world/index.html",
        "<!DOCTYPE html>\n<html lang=\"en\">\n  <head>\n    <meta charset=\"utf-8\">\n    <title>Hello, World!</title>\n    <link rel=\"canonical\" href=\"https://spi.blue/archive/hello-world.html\">\n    <meta http-equiv=\"refresh\" content=\"0; url=/archive/hello-world.html\">\n    <meta name=\"robots\" content=\"noarchive\">\n    <meta name=\"viewport\" content=\"width=device-width, initial-scale=1\">\n    <script>location.replace(\"/archive/hello-world.html\");</script>\n  </head>\n  <body>\n    <p>If you are not redirected, <a href=\"/archive/hello-world.html\">click here</a>.</p>\n  </body>\n</html>\n")] ∧
    containsSub "<title>Hello, World!</title>".data (stubFor helloEntry).data = true ∧
    containsSub "<link rel=\"canonical\" href=\"https://spi.blue/archive/hello-world.html\">".data
      (stubFor helloEntry).data = true ∧
    containsSub "content=\"0; url=/archive/hello-world.html\"".data
      (stubFor helloEntry).data = true := by
  refine ⟨?_, by decide, by decide, by decide, by decide⟩
  simp only [writesFor, List.mem_map]
  exact ⟨e, h, rfl⟩

set_option maxRecDepth 8000 in
/-- C1 witness: the end-to-end example archive, instantiated concretely. -/
theorem C1_stub_template_witness :
    helloEntry ∈ sortedEligible [helloEntry] ∧
    (pyStem helloEntry.name ++ "/index.html",
      renderStub (find_title (readText helloEntry) (fallbackFor (pyStem helloEntry.name)))
        (PUBLIC_BASE ++ ("/archive/" ++ helloEntry.name)) ("/archive/" ++ helloEntry.name))
      ∈ writesFor [helloEntry] :=
  ⟨by decide, (C1_stub_template [helloEntry] helloEntry (by decide)).1⟩

/-- C2 counterexample: the code trims before decoding entities, while the
claim orders decoding before trimming; on the title body `&#32;hi`, whose
entity decodes to a space, the code keeps the decoded leading space and
the claim's order removes it, so the two extractors disagree. -/
theorem C2_cleanup_order_counterexample :
    find_title "<title>&#32;hi</title>" "fb" = " hi" ∧
    find_title_specOrder "<title>&#32;hi</title>" "fb" = "hi" ∧
    find_title "<title>&#32;hi</title>" "fb" ≠
      find_title_specOrder "<title>&#32;hi</title>" "fb" := by
  refine ⟨by decide, by decide, by decide⟩

/-- C2 (amended): on any input whose first case-insensitive, possibly
multi-line title element the search finds, the extractor returns the
element body with whitespace runs collapsed to single spaces, then leading
and trailing whitespace trimmed, then HTML character entities decoded, and
finally a hard cut to at most 140 characters with no added suffix. -/
theorem C2_title_cleanup (text fb : String) (g : List Char)
    (h : searchTitle text.data = some g) :
    find_title text fb = String.mk ((unescape (pyStrip (collapseWs g))).take 140) ∧
    (find_title text fb).length ≤ 140 := by
  have hmk : ∀ l : List Char, (String.mk l).length = l.length := fun _ => rfl
  simp only [find_title, h]
  by_cases hl : (unescape (pyStrip (collapseWs g))).length > 140
  · rw [if_pos hl]
    refine ⟨rfl, ?_⟩
    rw [hmk, List.length_take]
    omega
  · rw [if_neg hl]
    push_neg at hl
    rw [List.take_of_length_le hl]
    exact ⟨rfl, hl⟩

set_option maxRecDepth 8000 in
/-- C2 witness: a title body of 200 characters, instantiated concretely; the
amended pipeline truncates it to its first 140 characters. -/
theorem C2_title_cleanup_witness :
    searchTitle ("<title>" ++ String.mk (List.replicate 200 'a') ++ "</title>").data =
      some (List.replicate 200 'a') ∧
    (find_title ("<title>" ++ String.mk (List.replicate 200 'a') ++ "</title>") "fb" =
        String.mk ((unescape (pyStrip (collapseWs (List.replicate 200 'a')))).take 140) ∧
      (find_title ("<title>" ++ String.mk (List.replicate 200 'a') ++ "</title>") "fb").length ≤
        140) :=
  ⟨by decide, C2_title_cleanup _ "fb" _ (by decide)⟩

/-- C3: when the page's content has no title element, or the content could
not be read at all, the stub's title is the fallback: the slug with every
hyphen replaced by a space, title-cased. -/
theorem C3_fallback_title (e : Entry)
    (h : e.readResult = none ∨ searchTitle (readText e).data = none) :
    titleFor e =
      pyTitle (String.mk ((pyStem e.name).data.map (fun c => if c = '-' then ' ' else c))) := by
  rcases h with h | h
  · simp only [titleFor, readText, h]
    rfl
  · simp only [titleFor, find_title, h]
    rfl

/-- C3 witness: a page named `my-cool-post.html` with no title element gets
the title `My Cool Post`. -/
theorem C3_fallback_title_witness :
    ((Entry.mk "my-cool-post.html" true (some "<h1>x</h1>")).readResult = none ∨
      searchTitle (readText (Entry.mk "my-cool-post.html" true (some "<h1>x</h1>"))).data = none) ∧
    titleFor (Entry.mk "my-cool-post.html" true (some "<h1>x</h1>")) = "My Cool Post" :=
  ⟨Or.inr (by decide),
   (C3_fallback_title (Entry.mk "my-cool-post.html" true (some "<h1>x</h1>"))
      (Or.inr (by decide))).trans (by decide)⟩

/-- C9: a present but empty or whitespace-only title element yields the
empty title, not the fallback: whenever the search matches, the fallback
argument is irrelevant, a whitespace-only body cleans to the empty string,
and the rendered stub then holds an empty title element. -/
theorem C9_empty_title_element (text fb : String) (g : List Char)
    (h : searchTitle text.data = some g) (hws : g.all isPySpace = true) :
    find_title text fb = "" ∧
    (∀ fb₂, find_title text fb₂ = find_title text fb) ∧
    ∀ a r, containsSub "<title></title>".data
        (renderStub (find_title text fb) a r).data = true := by
  have hclean : pyStrip (collapseWs g) = [] := pyStrip_collapseWs_all_space g hws
  have hft : ∀ f : String, find_title text f = "" := by
    intro f
    simp only [find_title, h, hclean]
    rfl
  refine ⟨hft fb, fun fb₂ => (hft fb₂).trans (hft fb).symm, ?_⟩
  intro a r
  rw [hft fb]
  show containsSub "<title></title>".data (renderStub "" a r).data = true
  simp only [renderStub, String.data_append]
  apply containsSub_append_left
  apply containsSub_append_left
  apply containsSub_append_left
  apply containsSub_append_left
  apply containsSub_append_left
  apply containsSub_append_left
  apply containsSub_append_left
  apply containsSub_append_left
  decide

/-- C9 witness: a whitespace-only title element, instantiated concretely. -/
theorem C9_empty_title_element_witness :
    searchTitle "<title> \n\t </title>".data = some [' ', '\n', '\t', ' '] ∧
    [' ', '\n', '\t', ' '].all isPySpace = true ∧
    (find_title "<title> \n\t </title>" "FB" = "" ∧
      (∀ fb₂, find_title "<title> \n\t </title>" fb₂ = find_title "<title> \n\t </title>" "FB") ∧
      ∀ a r, containsSub "<title></title>".data
          (renderStub (find_title "<title> \n\t </title>" "FB") a r).data = true) :=
  ⟨by decide, by decide,
   C9_empty_title_element "<title> \n\t </title>" "FB" [' ', '\n', '\t', ' ']
     (by decide) (by decide)⟩

set_option maxRecDepth 8000 in
/-- C10: with two eligible filenames sharing the stem `post` (the extension
check being case-insensitive), both are processed, both writes target
`post/index.html`, the final content is that of the lexicographically last
filename `post.html`, and the reported count of 2 exceeds the single
distinct output path. -/
theorem C10_same_stem_last_write_wins :
    sortedEligible dupArch = [dupA, dupB] ∧
    (writesFor dupArch).map Prod.fst = ["post/index.html", "post/index.html"] ∧
    stubFor dupA ≠ stubFor dupB ∧
    (∀ fs : FS, applyWrites fs (writesFor dupArch) "post/index.html" = some (stubFor dupB)) ∧
    run (some dupArch) = Except.ok (writesFor dupArch, 2) := by
  refine ⟨by decide, by decide, by decide, ?_, rfl⟩
  intro fs
  apply applyWrites_written
  decide

end MakeRedirects
